import Mathlib

/-!
# SlideSage: verification of the inconsistency-detection pipeline

Shallow embedding of the SlideSage PowerPoint inconsistency detector
(`src/utils/helpers.py`, `src/core/detector.py`, `src/core/analyzer.py`,
`src/slide_sage.py`).  Python strings are modelled as `String`/`List Char`,
`re.findall` loops as fueled left-to-right scanners, Python dicts with a
fixed key set as structures, and dicts used as insertion-ordered maps as
association lists.  Python integers are `Int`, lengths and counts are `Nat`.
-/

set_option autoImplicit false

namespace SlideSage

/-! ## Character classes and basic string utilities

`isWsChar` models the `\s` class of Python `re` (ASCII range) and the
whitespace stripped by `str.strip()`; `isWordChar` models `\w` (ASCII range).
-/

def isWsChar (c : Char) : Bool :=
  c = ' ' || c = '\t' || c = '\n' || c = '\x0d' || c = '\x0b' || c = '\x0c'

def isWordChar (c : Char) : Bool :=
  c.isAlphanum || c = '_'

def isLetterChar (c : Char) : Bool :=
  c.isAlpha

/-- Prefix test used by `containsSub`. -/
def isPrefixSub : List Char → List Char → Bool
  | [], _ => true
  | _ :: _, [] => false
  | a :: as, b :: bs => a = b && isPrefixSub as bs

/-- Python `needle in haystack` substring test on char lists. -/
def containsSub (needle : List Char) : List Char → Bool
  | [] => needle.isEmpty
  | c :: rest => isPrefixSub needle (c :: rest) || containsSub needle rest

/-- Python `str.lower()` (ASCII case folding, which covers all text the
detector's fixed keyword tables compare against). -/
def lowerChars (l : List Char) : List Char :=
  l.map Char.toLower

/-- Python `' '.join(fragments)`. -/
def joinSpace (fragments : List String) : String :=
  String.intercalate " " fragments

/-- Python `str.strip()`: drop leading and trailing whitespace. -/
def pyStrip (l : List Char) : List Char :=
  ((l.dropWhile isWsChar).reverse.dropWhile isWsChar).reverse

/-! ## `re.findall` scanning

A matcher `matchAt prev l` attempts a match at the start of `l`, where `prev`
is the character just before `l` in the original text (`none` at the start);
`prev` is what `\b` word-boundary checks need.  On success it returns the
matched characters and the remaining suffix.  `scanMatches` replays
`re.findall`'s left-to-right, non-overlapping scan; every matcher below
consumes at least one character on success, so fuel `length + 1` is exact.
-/

def scanMatches (matchAt : Option Char → List Char → Option (List Char × List Char)) :
    Nat → Option Char → List Char → List (List Char)
  | 0, _, _ => []
  | _ + 1, _, [] => []
  | fuel + 1, prev, c :: rest =>
    match matchAt prev (c :: rest) with
    | some (m, r) => m :: scanMatches matchAt fuel m.getLast? r
    | none => scanMatches matchAt fuel (some c) rest

def findall (matchAt : Option Char → List Char → Option (List Char × List Char))
    (l : List Char) : List (List Char) :=
  scanMatches matchAt (l.length + 1) none l

/-- `\b` holds just before a word character iff the previous character is
absent or not a word character. -/
def boundaryBefore (prev : Option Char) : Bool :=
  match prev with
  | none => true
  | some p => !isWordChar p

/-- `\b` holds just after a word character iff the next character is absent
or not a word character. -/
def boundaryAfter (l : List Char) : Bool :=
  match l with
  | [] => true
  | c :: _ => !isWordChar c

/-! ## Fact extraction (`utils/helpers.py`, `extract_numbers_and_dates`)

Each Python regex is compiled by hand into a deterministic matcher.  The
surrounding comments record how the backtracking of the original pattern
collapses to the deterministic code.
-/

/-- The `\s*%` tail after the digits (`ds`) and the optional decimal part
(`dec`) of a percentage match (`\s*` is forced maximal because `%` is not
whitespace). -/
def pctTryTail (ds dec r' : List Char) : Option (List Char × List Char) :=
  match r'.dropWhile isWsChar with
  | '%' :: rest => some (ds ++ dec ++ r'.takeWhile isWsChar ++ ['%'], rest)
  | _ => none

/-- Matcher for the percentage pattern `\d+(?:\.\d+)?\s*%`.

`\d+` is forced maximal (a shorter run leaves a digit where `.`/`\s`/`%` is
required); inside `(?:\.\d+)?` the digits are forced maximal for the same
reason, and if the tail fails after the decimal part the engine retries
without it. -/
def pctMatchAt (l : List Char) : Option (List Char × List Char) :=
  let ds := l.takeWhile Char.isDigit
  if ds.isEmpty then none else
  match l.dropWhile Char.isDigit with
  | '.' :: r2 =>
    if (r2.takeWhile Char.isDigit).isEmpty then
      pctTryTail ds [] (l.dropWhile Char.isDigit)
    else
      match pctTryTail ds ('.' :: r2.takeWhile Char.isDigit) (r2.dropWhile Char.isDigit) with
      | some res => some res
      | none => pctTryTail ds [] (l.dropWhile Char.isDigit)
  | r => pctTryTail ds [] r

/-- `(?:,\d{3})*` for the currency pattern: nothing after it can fail on a
longer run, so pure greedy consumption is exact. -/
def commaGroups : List Char → List Char × List Char
  | ',' :: d1 :: d2 :: d3 :: rest =>
    if d1.isDigit && d2.isDigit && d3.isDigit then
      let (c, r) := commaGroups rest
      (',' :: d1 :: d2 :: d3 :: c, r)
    else ([], ',' :: d1 :: d2 :: d3 :: rest)
  | l => ([], l)

/-- Matcher for the currency pattern `[\$€£¥₹]\s*\d{1,3}(?:,\d{3})*(?:\.\d{2})?`.

The pattern has no trailing context (no `\b`), so every quantifier is
satisfied by its greedy maximum: `\s*` maximal, `\d{1,3}` up to three digits,
then comma triples, then an optional `.` with exactly two digits. -/
def currencyMatchAt (l : List Char) : Option (List Char × List Char) :=
  match l with
  | c :: rest =>
    if c = '$' || c = '€' || c = '£' || c = '¥' || c = '₹' then
      let ws := rest.takeWhile isWsChar
      let r1 := rest.dropWhile isWsChar
      let ds := (r1.takeWhile Char.isDigit).take 3
      if ds.isEmpty then none else
      let r2 := r1.drop ds.length
      let (cg, r3) := commaGroups r2
      match r3 with
      | '.' :: a :: b :: r4 =>
        if a.isDigit && b.isDigit then
          some (c :: ws ++ ds ++ cg ++ ['.', a, b], r4)
        else some (c :: ws ++ ds ++ cg, r3)
      | _ => some (c :: ws ++ ds ++ cg, r3)
    else none
  | [] => none

/-- `(?:\.\d+)?\b` tail of the number pattern: the decimal digits are forced
maximal (`\b` never holds between two digits), and if the decimal branch
fails the engine retries without it (`.` is a non-word character, so `\b`
then holds). -/
def numOpt (r : List Char) : Option (List Char × List Char) :=
  match r with
  | '.' :: r2 =>
    let ds2 := r2.takeWhile Char.isDigit
    if !ds2.isEmpty && boundaryAfter (r2.dropWhile Char.isDigit) then
      some ('.' :: ds2, r2.dropWhile Char.isDigit)
    else some ([], r)
  | _ => if boundaryAfter r then some ([], r) else none

/-- `(?:,\d{3})*(?:\.\d+)?\b` tail of the number pattern: try the greedy
longest run of comma triples first and back off one triple at a time, which
replays the star's backtracking order. -/
def numTail : List Char → Option (List Char × List Char)
  | ',' :: d1 :: d2 :: d3 :: rest =>
    if d1.isDigit && d2.isDigit && d3.isDigit then
      match numTail rest with
      | some (t, rem) => some (',' :: d1 :: d2 :: d3 :: t, rem)
      | none => numOpt (',' :: d1 :: d2 :: d3 :: rest)
    else numOpt (',' :: d1 :: d2 :: d3 :: rest)
  | l => numOpt l

/-- Matcher for the number pattern `\b\d+(?:,\d{3})*(?:\.\d+)?\b`.
`\d+` is forced maximal (`\b` fails between digits). -/
def numberMatchAt (prev : Option Char) (l : List Char) : Option (List Char × List Char) :=
  if !boundaryBefore prev then none else
  let ds := l.takeWhile Char.isDigit
  if ds.isEmpty then none else
  match numTail (l.dropWhile Char.isDigit) with
  | some (t, rem) => some (ds ++ t, rem)
  | none => none

/-- Matcher for the date pattern `\b\d{1,2}[\/\-]\d{1,2}[\/\-]\d{2,4}\b`.

Every `\d{m,n}` is forced to consume its whole digit run (a partial consume
leaves a digit where a separator or `\b` is required), so a component
matches iff its run length lies in the quantifier's range. -/
def dateP1MatchAt (prev : Option Char) (l : List Char) : Option (List Char × List Char) :=
  if !boundaryBefore prev then none else
  let d1 := l.takeWhile Char.isDigit
  if d1.length < 1 || 2 < d1.length then none else
  match l.dropWhile Char.isDigit with
  | s1 :: r1 =>
    if s1 = '/' || s1 = '-' then
      let d2 := r1.takeWhile Char.isDigit
      if d2.length < 1 || 2 < d2.length then none else
      match r1.dropWhile Char.isDigit with
      | s2 :: r2 =>
        if s2 = '/' || s2 = '-' then
          let d3 := r2.takeWhile Char.isDigit
          if 2 ≤ d3.length && d3.length ≤ 4 && boundaryAfter (r2.dropWhile Char.isDigit) then
            some (d1 ++ s1 :: d2 ++ s2 :: d3, r2.dropWhile Char.isDigit)
          else none
        else none
      | [] => none
    else none
  | [] => none

/-- Matcher for the date pattern `\b\d{4}[\/\-]\d{1,2}[\/\-]\d{1,2}\b`. -/
def dateP2MatchAt (prev : Option Char) (l : List Char) : Option (List Char × List Char) :=
  if !boundaryBefore prev then none else
  let d1 := l.takeWhile Char.isDigit
  if d1.length ≠ 4 then none else
  match l.dropWhile Char.isDigit with
  | s1 :: r1 =>
    if s1 = '/' || s1 = '-' then
      let d2 := r1.takeWhile Char.isDigit
      if d2.length < 1 || 2 < d2.length then none else
      match r1.dropWhile Char.isDigit with
      | s2 :: r2 =>
        if s2 = '/' || s2 = '-' then
          let d3 := r2.takeWhile Char.isDigit
          if 1 ≤ d3.length && d3.length ≤ 2 && boundaryAfter (r2.dropWhile Char.isDigit) then
            some (d1 ++ s1 :: d2 ++ s2 :: d3, r2.dropWhile Char.isDigit)
          else none
        else none
      | [] => none
    else none
  | [] => none

/-- Lowercased three-letter month abbreviations of the
`(?:Jan|Feb|Mar|Apr|May|Jun|Jul|Aug|Sep|Oct|Nov|Dec)` alternation. -/
def monthAbbrevs : List (List Char) :=
  [['j','a','n'], ['f','e','b'], ['m','a','r'], ['a','p','r'], ['m','a','y'],
   ['j','u','n'], ['j','u','l'], ['a','u','g'], ['s','e','p'], ['o','c','t'],
   ['n','o','v'], ['d','e','c']]

/-- Matcher for `\b(?:Jan|…|Dec)[a-z]*\s+\d{1,2},?\s+\d{4}\b` under
`re.IGNORECASE` (so `[a-z]` also matches capitals).

The greedy `,?` with a mandatory `\s+` after it means: if a comma follows
the day it must be followed by whitespace, since the comma-less alternative
then immediately fails on the comma; `\d{4}\b` forces a digit run of exactly
four followed by a non-word character. -/
def dateP3MatchAt (prev : Option Char) (l : List Char) : Option (List Char × List Char) :=
  if !boundaryBefore prev then none else
  match l with
  | a :: b :: c :: rest =>
    if monthAbbrevs.contains [a.toLower, b.toLower, c.toLower] then
      let letters := rest.takeWhile isLetterChar
      let r1 := rest.dropWhile isLetterChar
      let ws1 := r1.takeWhile isWsChar
      if ws1.isEmpty then none else
      let r2 := r1.dropWhile isWsChar
      let dd := r2.takeWhile Char.isDigit
      if dd.length < 1 || 2 < dd.length then none else
      let r3 := r2.dropWhile Char.isDigit
      let comma : List Char := match r3 with | ',' :: _ => [','] | _ => []
      let r4 := match r3 with | ',' :: r' => r' | _ => r3
      let ws2 := r4.takeWhile isWsChar
      if ws2.isEmpty then none else
      let r5 := r4.dropWhile isWsChar
      let yy := r5.takeWhile Char.isDigit
      if yy.length = 4 && boundaryAfter (r5.dropWhile Char.isDigit) then
        some (a :: b :: c :: letters ++ ws1 ++ dd ++ comma ++ ws2 ++ yy,
              r5.dropWhile Char.isDigit)
      else none
    else none
  | _ => none

/-- Matcher for `\b\d{1,2}\s+(?:Jan|…|Dec)[a-z]*\s+\d{4}\b` under
`re.IGNORECASE`. -/
def dateP4MatchAt (prev : Option Char) (l : List Char) : Option (List Char × List Char) :=
  if !boundaryBefore prev then none else
  let dd := l.takeWhile Char.isDigit
  if dd.length < 1 || 2 < dd.length then none else
  let r1 := l.dropWhile Char.isDigit
  let ws1 := r1.takeWhile isWsChar
  if ws1.isEmpty then none else
  match r1.dropWhile isWsChar with
  | a :: b :: c :: rest =>
    if monthAbbrevs.contains [a.toLower, b.toLower, c.toLower] then
      let letters := rest.takeWhile isLetterChar
      let r2 := rest.dropWhile isLetterChar
      let ws2 := r2.takeWhile isWsChar
      if ws2.isEmpty then none else
      let r3 := r2.dropWhile isWsChar
      let yy := r3.takeWhile Char.isDigit
      if yy.length = 4 && boundaryAfter (r3.dropWhile Char.isDigit) then
        some (dd ++ ws1 ++ a :: b :: c :: letters ++ ws2 ++ yy, r3.dropWhile Char.isDigit)
      else none
    else none
  | _ => none

/-- Result of `extract_numbers_and_dates`: the four typed fact sequences. -/
structure Extracted where
  numbers : List String
  percentages : List String
  currency : List String
  dates : List String
  deriving Repr, DecidableEq

/-- `utils/helpers.py`, `extract_numbers_and_dates`: run the four `re.findall`
scans over the text (the date list concatenates the four date patterns'
scans, in pattern order). Empty text short-circuits to empty sequences. -/
def extract_numbers_and_dates (text : String) : Extracted :=
  if text = "" then ⟨[], [], [], []⟩ else
  let l := text.data
  { numbers := (findall numberMatchAt l).map String.mk
    percentages := (findall (fun _ => pctMatchAt) l).map String.mk
    currency := (findall (fun _ => currencyMatchAt) l).map String.mk
    dates := ((findall dateP1MatchAt l).map String.mk)
      ++ ((findall dateP2MatchAt l).map String.mk)
      ++ ((findall dateP3MatchAt l).map String.mk)
      ++ ((findall dateP4MatchAt l).map String.mk) }

example : (extract_numbers_and_dates "Revenue increased to $500,000").currency
    = ["$500,000"] := by decide

example : extract_numbers_and_dates "Revenue increased to $500,000"
    = ⟨["500,000"], [], ["$500,000"], []⟩ := by decide

example : (extract_numbers_and_dates "grew 25 % and 12.5% in Jan 5, 2024").percentages
    = ["25 %", "12.5%"] := by decide

example : (extract_numbers_and_dates "due 12/31/2024 and 3 Mar 2025").dates
    = ["12/31/2024", "3 Mar 2025"] := by decide

/-! ## Detector data model (`core/detector.py`)

A finding dict carries `slide_numbers`, `description`, `severity` and `type`.
`severity` is `Option String` because `_calculate_summary` reads it with
`item.get('severity', 'unknown')`; `slide_numbers` and `description` are read
with defaults `[]` and `''`, which the plain `List Int`/`String` fields
represent directly (`type` is write-only in the embedded code). -/
structure Finding where
  slide_numbers : List Int
  description : String
  severity : Option String
  ftype : String
  deriving Repr, DecidableEq

/-- The slide-record fields the detector reads: the raw `text` fragment list
and the typed fact sequences produced by extraction. -/
structure SlideData where
  text : List String
  numbers : List String
  percentages : List String
  currency : List String
  dates : List String
  deriving Repr, DecidableEq

/-- `slides_data`: an insertion-ordered mapping from 1-based slide number to
slide record (Python dict; keys are distinct by construction). -/
abbrev SlidesData := List (Int × SlideData)

/-- `core/extractor.py`, `_extract_from_slide` lines 126–128: the typed fact
sequences of a slide are extracted from its space-joined fragment list. -/
def mkSlideData (fragments : List String) : SlideData :=
  let e := extract_numbers_and_dates (joinSpace fragments)
  { text := fragments, numbers := e.numbers, percentages := e.percentages,
    currency := e.currency, dates := e.dates }

/-- `' '.join(slide_data['text']).lower()` as a char list. -/
def slideLower (sd : SlideData) : List Char :=
  lowerChars (joinSpace sd.text).data

/-- `any(word in slide_text for word in kws)`. -/
def hasKw (kws : List String) (t : List Char) : Bool :=
  kws.any fun k => containsSub k.data t

def revenueKeywords : List String := ["revenue", "sales", "income", "earnings"]
def percentageKeywords : List String := ["market share", "growth", "increase", "decrease"]
def quantityKeywords : List String := ["employees", "customers", "users", "units"]

/-! ### Numerical conflict scan (`_detect_numerical_conflicts`)

`defaultdict(list)` keyed by value string, in key-insertion order, is an
association list; `addOcc` appends one slide-number occurrence. -/

abbrev Groups := List (String × List Int)

def addOcc : Groups → String → Int → Groups
  | [], k, n => [(k, [n])]
  | (k', l) :: rest, k, n =>
    if k' = k then (k', l ++ [n]) :: rest else (k', l) :: addOcc rest k n

/-- One grouping pass of `_detect_numerical_conflicts`: walk the slides in
order; for each value of the selected fact field of a slide whose lowercased
joined text contains one of the context keywords, record the slide number
(once per occurrence of the value, so multiplicity is kept).  The source
builds the three groupings in a single loop over the slides; building them
in three independent passes is the same fold run three times. -/
def collectGroups (field : SlideData → List String) (kws : List String)
    (slides : SlidesData) : Groups :=
  slides.foldl
    (fun g p =>
      if hasKw kws (slideLower p.2) then
        (field p.2).foldl (fun g' v => addOcc g' v p.1) g
      else g)
    []

def revenueDesc (v : String) : String :=
  "Conflicting revenue figures: " ++ v ++ " appears on multiple slides"

def percentageDesc (v : String) : String :=
  "Conflicting percentage data: " ++ v ++ " appears on multiple slides"

def quantityDesc (v : String) : String :=
  "Conflicting quantity data: " ++ v ++ " appears on multiple slides"

/-- `for metric, slide_nums in data.items(): if len(slide_nums) > 1: append`. -/
def conflictsOf (g : Groups) (mk : String → List Int → Finding) : List Finding :=
  g.filterMap fun p => if 1 < p.2.length then some (mk p.1 p.2) else none

def mkRevenueFinding (v : String) (l : List Int) : Finding :=
  ⟨l, revenueDesc v, some "high", "revenue_conflict"⟩

def mkPercentageFinding (v : String) (l : List Int) : Finding :=
  ⟨l, percentageDesc v, some "high", "percentage_conflict"⟩

def mkQuantityFinding (v : String) (l : List Int) : Finding :=
  ⟨l, quantityDesc v, some "medium", "quantity_conflict"⟩

/-- `_detect_numerical_conflicts`: revenue findings first, then percentage,
then quantity, each grouping in key-insertion order. -/
def detect_numerical_conflicts (slides : SlidesData) : List Finding :=
  conflictsOf (collectGroups SlideData.currency revenueKeywords slides) mkRevenueFinding
    ++ conflictsOf (collectGroups SlideData.percentages percentageKeywords slides)
      mkPercentageFinding
    ++ conflictsOf (collectGroups SlideData.numbers quantityKeywords slides) mkQuantityFinding

/-! ### Contradictory statement scan (`_detect_contradictory_statements`) -/

/-- The fixed `(phraseA, phraseB, context)` contradiction table. -/
def contradictionPatterns : List (String × String × String) :=
  [("highly competitive", "few competitors", "market competition"),
   ("growing market", "declining market", "market growth"),
   ("market leader", "small player", "market position"),
   ("increasing revenue", "decreasing revenue", "revenue trend"),
   ("profitable", "unprofitable", "profitability"),
   ("successful", "unsuccessful", "success"),
   ("strong performance", "weak performance", "performance"),
   ("cost reduction", "heavy investment", "strategy"),
   ("focus on efficiency", "expand rapidly", "approach"),
   ("conservative", "aggressive", "strategy"),
   ("launch in 2024", "launch in 2025", "launch timeline"),
   ("phase 1 complete", "phase 1 ongoing", "project status"),
   ("ahead of schedule", "behind schedule", "project timeline")]

/-- Slide numbers (in slide order) whose lowercased joined text contains the
phrase (the `slides_with_patternN` lists). -/
def slidesWith (phrase : String) (slides : SlidesData) : List Int :=
  (slides.filter fun p => containsSub phrase.data (slideLower p.2)).map (·.1)

def contradictionDesc (p : String × String × String) : String :=
  "Contradictory " ++ p.2.2 ++ ": '" ++ p.1 ++ "' vs '" ++ p.2.1 ++ "'"

/-- The per-table-entry body of the contradiction loop: a finding when both
phrase slide lists are non-empty, with `slide_numbers` their concatenation
(`slides_with_pattern1 + slides_with_pattern2`). -/
def contradictionFindingFor (slides : SlidesData) (p : String × String × String) :
    Option Finding :=
  let s1 := slidesWith p.1 slides
  let s2 := slidesWith p.2.1 slides
  if s1 ≠ [] ∧ s2 ≠ [] then
    some ⟨s1 ++ s2, contradictionDesc p, some "high", "contradictory_statements"⟩
  else none

/-- `_detect_contradictory_statements`: one finding per table entry whose two
phrase slide lists are both non-empty. -/
def detect_contradictory_statements (slides : SlidesData) : List Finding :=
  contradictionPatterns.filterMap (contradictionFindingFor slides)

/-! ### Timeline scan (`_detect_timeline_issues`) -/

/-- `_detect_timeline_issues`: if more than one slide has a non-empty date
list, emit a single medium finding listing all such slides. -/
def detect_timeline_issues (slides : SlidesData) : List Finding :=
  let withDates := slides.filter fun p => p.2.dates ≠ []
  if 1 < withDates.length then
    [⟨withDates.map (·.1),
      "Multiple dates found across slides - potential timeline conflicts",
      some "medium", "timeline_issues"⟩]
  else []

/-! ### Category maps and rule-based detection -/

/-- The four-category finding map (`numerical_conflicts`,
`contradictory_statements`, `timeline_issues`, `logical_inconsistencies`),
in the source's insertion order. -/
structure CategoryMap where
  numerical_conflicts : List Finding
  contradictory_statements : List Finding
  timeline_issues : List Finding
  logical_inconsistencies : List Finding
  deriving Repr, DecidableEq

def emptyCategoryMap : CategoryMap := ⟨[], [], [], []⟩

/-- `_rule_based_detection`: run the three scans; `logical_inconsistencies`
is initialised empty and never extended. -/
def rule_based_detection (slides : SlidesData) : CategoryMap :=
  { numerical_conflicts := detect_numerical_conflicts slides
    contradictory_statements := detect_contradictory_statements slides
    timeline_issues := detect_timeline_issues slides
    logical_inconsistencies := [] }

/-! ### Deduplication and reconciliation (`_deduplicate_items`,
`_combine_results`) -/

/-- Insertion into a sorted list, giving Python `sorted` on ints. -/
def insertInt (x : Int) : List Int → List Int
  | [] => [x]
  | y :: ys => if x ≤ y then x :: y :: ys else y :: insertInt x ys

def sortInts (l : List Int) : List Int := l.foldr insertInt []

/-- The dedup key: `(tuple(sorted(slide_numbers)), description.lower()[:50])`. -/
def dedupKey (f : Finding) : List Int × String :=
  (sortInts f.slide_numbers, String.mk ((lowerChars f.description.data).take 50))

/-- The `seen_combinations` loop of `_deduplicate_items`. -/
def dedupGo : List Finding → List (List Int × String) → List Finding
  | [], _ => []
  | i :: rest, seen =>
    if dedupKey i ∈ seen then dedupGo rest seen
    else i :: dedupGo rest (dedupKey i :: seen)

def deduplicate_items (items : List Finding) : List Finding :=
  dedupGo items []

/-- `_combine_results`: per category, concatenate rule-based then AI items
and deduplicate. -/
def combine_results (rule ai : CategoryMap) : CategoryMap :=
  { numerical_conflicts :=
      deduplicate_items (rule.numerical_conflicts ++ ai.numerical_conflicts)
    contradictory_statements :=
      deduplicate_items (rule.contradictory_statements ++ ai.contradictory_statements)
    timeline_issues :=
      deduplicate_items (rule.timeline_issues ++ ai.timeline_issues)
    logical_inconsistencies :=
      deduplicate_items (rule.logical_inconsistencies ++ ai.logical_inconsistencies) }

/-! ### Summary statistics (`_calculate_summary`) -/

/-- `_flatten_inconsistencies`: the category lists in `.values()` order. -/
def flatten_inconsistencies (m : CategoryMap) : List Finding :=
  m.numerical_conflicts ++ m.contradictory_statements
    ++ m.timeline_issues ++ m.logical_inconsistencies

/-- `defaultdict(int)` counter bump: increment the first entry with the key,
or append a fresh `(key, 1)` entry. -/
def incrCount : List (String × Nat) → String → List (String × Nat)
  | [], k => [(k, 1)]
  | (k', n) :: rest, k =>
    if k' = k then (k', n + 1) :: rest else (k', n) :: incrCount rest k

/-- Counter lookup (0 for an absent key). -/
def lookupCount (k : String) : List (String × Nat) → Nat
  | [] => 0
  | (k', n) :: rest => if k' = k then n else lookupCount k rest

def sumCounts (m : List (String × Nat)) : Nat :=
  (m.map (·.2)).sum

/-- `item.get('severity', 'unknown')`. -/
def severityKey (f : Finding) : String :=
  f.severity.getD "unknown"

structure Summary where
  total_slides : Nat
  slides_analyzed : Nat
  inconsistencies_found : Nat
  severity_breakdown : List (String × Nat)
  category_breakdown : List (String × Nat)
  deriving Repr, DecidableEq

/-- `_calculate_summary`. -/
def calculate_summary (inc : CategoryMap) (slides : SlidesData) : Summary :=
  { total_slides := slides.length
    slides_analyzed := slides.length
    inconsistencies_found :=
      inc.numerical_conflicts.length + inc.contradictory_statements.length
        + inc.timeline_issues.length + inc.logical_inconsistencies.length
    severity_breakdown :=
      (flatten_inconsistencies inc).foldl (fun m f => incrCount m (severityKey f)) []
    category_breakdown :=
      [("numerical_conflicts", inc.numerical_conflicts.length),
       ("contradictory_statements", inc.contradictory_statements.length),
       ("timeline_issues", inc.timeline_issues.length),
       ("logical_inconsistencies", inc.logical_inconsistencies.length)] }

/-! ### AI result extraction and the full detection run -/

/-- The `ai_analysis.get('inconsistencies', {})` dict: any of the four
category keys may be absent. -/
structure PartialCategoryMap where
  numerical_conflicts : Option (List Finding)
  contradictory_statements : Option (List Finding)
  timeline_issues : Option (List Finding)
  logical_inconsistencies : Option (List Finding)
  deriving Repr, DecidableEq

def emptyPartialCategoryMap : PartialCategoryMap := ⟨none, none, none, none⟩

/-- The keys of the `ai_analysis` dict that `_extract_ai_results` reads: an
optional `error` tag and an optional `inconsistencies` sub-dict (`{}` passed
by the orchestrator on AI failure is `⟨none, none⟩`). -/
structure AIAnalysis where
  error : Option String
  inconsistencies : Option PartialCategoryMap
  deriving Repr, DecidableEq

/-- `_extract_ai_results`: an error-tagged analysis yields the empty
structure; otherwise each category defaults to `[]`. -/
def extract_ai_results (ai : AIAnalysis) : CategoryMap :=
  if ai.error.isSome then emptyCategoryMap
  else
    let inc := ai.inconsistencies.getD emptyPartialCategoryMap
    { numerical_conflicts := inc.numerical_conflicts.getD []
      contradictory_statements := inc.contradictory_statements.getD []
      timeline_issues := inc.timeline_issues.getD []
      logical_inconsistencies := inc.logical_inconsistencies.getD [] }

structure DetectResult where
  summary : Summary
  inconsistencies : CategoryMap
  rule_based_count : Nat
  ai_based_count : Nat
  deriving Repr, DecidableEq

/-- `detect_inconsistencies`: rule-based scan, AI extraction, reconciliation,
summary. -/
def detect_inconsistencies (slides : SlidesData) (ai : AIAnalysis) : DetectResult :=
  let rb := rule_based_detection slides
  let air := extract_ai_results ai
  let combined := combine_results rb air
  { summary := calculate_summary combined slides
    inconsistencies := combined
    rule_based_count := (flatten_inconsistencies rb).length
    ai_based_count := (flatten_inconsistencies air).length }

/-! ## AI adapter (`core/analyzer.py`)

`json.loads` is an external library boundary: it is passed in as an abstract
partial parser `loads : String → Option ParsedDoc`.  The string-manipulation
strategies around it are embedded from the source. -/

/-- One entry of the `detailed_analysis` array of the intelligence-report
schema (from the prompt's JSON template). -/
structure DetailedAnalysisEntry where
  category : String
  severity : String
  slides : List Int
  issue_type : String
  detailed_description : String
  business_impact : String
  intelligence_insights : String
  recommended_actions : List String
  confidence_level : String
  deriving Repr, DecidableEq

structure StrategicRecommendation where
  priority : String
  action : String
  rationale : String
  expected_outcome : String
  deriving Repr, DecidableEq

structure ExecutiveSummary where
  overall_risk_level : String
  data_integrity_score : String
  strategic_coherence_score : String
  stakeholder_confidence_impact : String
  critical_findings_count : Nat
  business_impact_assessment : String
  deriving Repr, DecidableEq

structure DataQualityAssessment where
  reliability_score : String
  consistency_score : String
  completeness_score : String
  accuracy_indicators : List String
  data_gaps : List String
  verification_needs : List String
  deriving Repr, DecidableEq

structure StakeholderImpactAnalysis where
  investor_confidence : String
  employee_trust : String
  customer_perception : String
  regulatory_risk : String
  deriving Repr, DecidableEq

/-- The richer AI-only output shape. -/
structure IntelligenceReport where
  executive_summary : ExecutiveSummary
  detailed_analysis : List DetailedAnalysisEntry
  strategic_recommendations : List StrategicRecommendation
  data_quality_assessment : DataQualityAssessment
  stakeholder_impact_analysis : StakeholderImpactAnalysis
  deriving Repr, DecidableEq

/-- `_get_empty_intelligence_report`. -/
def get_empty_intelligence_report : IntelligenceReport :=
  { executive_summary :=
      { overall_risk_level := "low"
        data_integrity_score := "8/10"
        strategic_coherence_score := "8/10"
        stakeholder_confidence_impact := "low"
        critical_findings_count := 0
        business_impact_assessment := "No significant issues detected" }
    detailed_analysis := []
    strategic_recommendations := []
    data_quality_assessment :=
      { reliability_score := "8/10"
        consistency_score := "8/10"
        completeness_score := "8/10"
        accuracy_indicators := []
        data_gaps := []
        verification_needs := [] }
    stakeholder_impact_analysis :=
      { investor_confidence := "high"
        employee_trust := "high"
        customer_perception := "high"
        regulatory_risk := "low" } }

/-- A successfully `json.loads`-parsed top-level object, as far as the parse
dispatch inspects it: an optional `intelligence_report` key and the four
optional legacy category keys. -/
structure ParsedDoc where
  intelligence_report : Option IntelligenceReport
  numerical_conflicts : Option (List Finding)
  contradictory_statements : Option (List Finding)
  timeline_issues : Option (List Finding)
  logical_inconsistencies : Option (List Finding)
  deriving Repr, DecidableEq

/-! ### Parsing strategy 2: fenced code block extraction

Pattern ` ```(?:json)?\s*(\{.*?\})\s*``` ` with `re.DOTALL`; only the first
match's capture group is consumed by the source (`matches[0]`).  The lazy
`.*?` takes the shortest content such that a `}` followed by maximal
whitespace and a closing fence comes next. -/

/-- Does maximal whitespace followed by a closing fence start here? -/
def fenceEnd (l : List Char) : Bool :=
  (l.dropWhile isWsChar).take 3 = ['`', '`', '`']

/-- Lazy scan of `.*?` for the earliest `\}\s*` ``` ` ``` continuation; `acc`
holds the content scanned so far (in order). -/
def fenceClose : List Char → List Char → Option (List Char)
  | [], _ => none
  | c :: rest, acc =>
    if c = '\x7d' && fenceEnd rest then some (acc ++ ['\x7d'])
    else fenceClose rest (acc ++ [c])

/-- `\s*(\{.*?\})\s*` ``` ` ``` ` starting at `l`; returns the capture. -/
def fencePathFrom (l : List Char) : Option (List Char) :=
  match l.dropWhile isWsChar with
  | '\x7b' :: content =>
    match fenceClose content [] with
    | some body => some ('\x7b' :: body)
    | none => none
  | _ => none

/-- The full fence matcher at one position: an opening fence, then the greedy
optional `json` (the fallback without it immediately fails on the `j`, but is
replayed for faithfulness), then `fencePathFrom`. -/
def fenceMatchAt (l : List Char) : Option (List Char) :=
  match l with
  | '`' :: '`' :: '`' :: rest =>
    if rest.take 4 = ['j', 's', 'o', 'n'] then
      match fencePathFrom (rest.drop 4) with
      | some cap => some cap
      | none => fencePathFrom rest
    else fencePathFrom rest
  | _ => none

/-- First fence capture in the text (`re.findall(...)[0]`). -/
def fenceFirst : Nat → List Char → Option (List Char)
  | 0, _ => none
  | _ + 1, [] => none
  | fuel + 1, c :: rest =>
    match fenceMatchAt (c :: rest) with
    | some cap => some cap
    | none => fenceFirst fuel rest

/-! ### Parsing strategy 3: balanced-brace object scan

Pattern `\{[^{}]*(?:\{[^{}]*\}[^{}]*)*\}` with `re.DOTALL`: a depth-two
brace skeleton.  All quantifiers are forced (a `[^{}]*` run always ends at a
brace or the end of input, and a failed inner group cannot be rescued by
taking fewer iterations), so the matcher is deterministic. -/

def nonBrace (c : Char) : Bool := c ≠ '\x7b' && c ≠ '\x7d'

/-- After the opening brace and a `[^{}]*` run: either close now, or consume
one `\{[^{}]*\}[^{}]*` group and continue. -/
def braceLoop : Nat → List Char → List Char → Option (List Char × List Char)
  | 0, _, _ => none
  | _ + 1, '\x7d' :: rest, acc => some (acc ++ ['\x7d'], rest)
  | fuel + 1, '\x7b' :: rest, acc =>
    let mid := rest.takeWhile nonBrace
    match rest.dropWhile nonBrace with
    | '\x7d' :: r2 =>
      let tail := r2.takeWhile nonBrace
      braceLoop fuel (r2.dropWhile nonBrace) (acc ++ '\x7b' :: mid ++ '\x7d' :: tail)
    | _ => none
  | _ + 1, _, _ => none

def braceMatchAt (l : List Char) : Option (List Char × List Char) :=
  match l with
  | '\x7b' :: rest =>
    match braceLoop (rest.length + 1) (rest.dropWhile nonBrace) ('\x7b' :: rest.takeWhile nonBrace) with
    | some (m, r) => some (m, r)
    | none => none
  | _ => none

/-! ### Parsing strategies 4 and 5: fence stripping and best-effort repair -/

/-- Strategy 4: `strip`, drop a leading ` ``` `, drop a trailing ` ``` `,
`strip` again. -/
def stripFences (text : List Char) : List Char :=
  let c1 := pyStrip text
  let c2 := if c1.take 3 = ['`', '`', '`'] then c1.drop 3 else c1
  let c3 :=
    if c2.reverse.take 3 = ['`', '`', '`'] then (c2.reverse.drop 3).reverse else c2
  pyStrip c3

/-- The character class `[^\w\s\{\}\[\]",:.-]` of the trailing-junk pattern,
negated (i.e. the characters allowed to remain). -/
def jsonTailAllowed (c : Char) : Bool :=
  isWordChar c || isWsChar c || c = '\x7b' || c = '\x7d' || c = '[' || c = ']'
    || c = '"' || c = ',' || c = ':' || c = '.' || c = '-'

/-- `re.sub(r'[^\w\s\{\}\[\]",:.-]+$', '', text)`: `$` matches at the end or
just before a single final newline, so the (maximal, leftmost) match is the
trailing run of disallowed characters in that position. -/
def stripTrailingJunk (l : List Char) : List Char :=
  match l.getLast? with
  | some '\n' =>
    ((l.dropLast.reverse.dropWhile fun c => !jsonTailAllowed c).reverse) ++ ['\n']
  | _ => (l.reverse.dropWhile fun c => !jsonTailAllowed c).reverse

/-- Does `\s*[}\]]` start here?  (`[}\]]` after a maximal whitespace run is
forced, since a bracket is not whitespace.) -/
def bracketAfterWs (l : List Char) : Bool :=
  match l.dropWhile isWsChar with
  | c :: _ => c = '\x7d' || c = ']'
  | [] => false

/-- `re.sub(r',(\s*[}\]])', r'\1', text)`: drop every comma directly before
(whitespace and) a closing bracket.  Rescanning the kept whitespace is
harmless since it contains no comma. -/
def fixTrailingCommas : List Char → List Char
  | [] => []
  | c :: rest =>
    if c = ',' && bracketAfterWs rest then fixTrailingCommas rest
    else c :: fixTrailingCommas rest

/-- `re.sub(r'(\w+):', r'"\1":', text)`: wrap every maximal word run that is
directly followed by a colon in double quotes. -/
def quoteKeysF : Nat → List Char → List Char
  | 0, l => l
  | _ + 1, [] => []
  | fuel + 1, c :: rest =>
    if isWordChar c then
      let w := (c :: rest).takeWhile isWordChar
      match (c :: rest).dropWhile isWordChar with
      | ':' :: r2 => '"' :: (w ++ '"' :: ':' :: quoteKeysF fuel r2)
      | r => w ++ quoteKeysF fuel r
    else c :: quoteKeysF fuel rest

def quoteKeys (l : List Char) : List Char := quoteKeysF (l.length + 1) l

/-- `text.replace("'", '"')`. -/
def singleToDouble (l : List Char) : List Char :=
  l.map fun c => if c = '\'' then '"' else c

/-- `re.sub(r'\s+', ' ', text)`: collapse whitespace runs to single spaces. -/
def collapseWsAux : Bool → List Char → List Char
  | _, [] => []
  | prevWs, c :: rest =>
    if isWsChar c then
      if prevWs then collapseWsAux true rest else ' ' :: collapseWsAux true rest
    else c :: collapseWsAux false rest

def collapseWs (l : List Char) : List Char := collapseWsAux false l

/-- `_fix_common_json_issues`: the five substitutions in source order. -/
def fix_common_json_issues (text : String) : String :=
  String.mk (collapseWs (singleToDouble (quoteKeys (fixTrailingCommas
    (stripTrailingJunk text.data)))))

/-- `_robust_json_parse`: the five strategies tried in order.  `loads` is the
abstract `json.loads` boundary (`none` = `JSONDecodeError`). -/
def robust_json_parse (loads : String → Option ParsedDoc) (text : String) :
    Option ParsedDoc :=
  match loads text with
  | some p => some p
  | none =>
  match (fenceFirst (text.data.length + 1) text.data).bind (fun cap => loads (String.mk cap)) with
  | some p => some p
  | none =>
  match (findall (fun _ l => braceMatchAt l) text.data).findSome?
      (fun m => loads (String.mk m)) with
  | some p => some p
  | none =>
  match loads (String.mk (stripFences text.data)) with
  | some p => some p
  | none => loads (fix_common_json_issues text)

/-- What `_parse_analysis_response` hands back: either an intelligence report
or a legacy four-category map. -/
inductive ParsedResult where
  | report (r : IntelligenceReport)
  | legacy (m : CategoryMap)
  deriving Repr, DecidableEq

/-- `_extract_intelligence_from_text`: the text fallback returns the empty
report. -/
def extract_intelligence_from_text (_text : String) : IntelligenceReport :=
  get_empty_intelligence_report

/-- The body of `_parse_analysis_response` on a candidate text: robust-parse
it; a parsed object with an `intelligence_report` key is the report, any
other parsed object is read as the legacy shape with missing categories
defaulted to `[]`; a parse failure falls back to
`_extract_intelligence_from_text` (the source's truthiness test `if
parsed_data:` also sends a parsed *empty* object down the fallback path;
an empty object is not representable here, so `none` covers exactly the
failure case). -/
def parse_analysis_text (loads : String → Option ParsedDoc) (text : String) :
    ParsedResult :=
  match robust_json_parse loads text with
  | some p =>
    match p.intelligence_report with
    | some r => .report r
    | none =>
      .legacy
        { numerical_conflicts := p.numerical_conflicts.getD []
          contradictory_statements := p.contradictory_statements.getD []
          timeline_issues := p.timeline_issues.getD []
          logical_inconsistencies := p.logical_inconsistencies.getD [] }
  | none => .report (extract_intelligence_from_text text)

/-! ## Orchestration (`core/analyzer.py` `analyze_inconsistencies`,
`slide_sage.py` `main`)

`analyze_inconsistencies` returns exactly one of three dict shapes: an
error tag, an intelligence-format result (which always carries the
`intelligence_report` key together with `analysis_type = 'intelligence'`),
or a legacy-format result carrying `inconsistencies`.  That tagged union is
the inductive below; `main` pattern-matches on it. -/

inductive AnalyzeOutcome where
  | err (msg : String)
  | intelligence (report : IntelligenceReport)
  | legacy (inc : PartialCategoryMap)
  deriving Repr

/-- `slide_sage.py` lines 157–174: an AI error falls back to rule-based-only
detection (`detect_inconsistencies(slides_data, {})`); an intelligence-level
analysis is passed through to rendering directly; a legacy analysis goes
through reconciliation. -/
def run_results (slides : SlidesData) :
    AnalyzeOutcome → DetectResult ⊕ IntelligenceReport
  | .err _ => .inl (detect_inconsistencies slides ⟨none, none⟩)
  | .intelligence r => .inr r
  | .legacy inc => .inl (detect_inconsistencies slides ⟨none, some inc⟩)

/-! ## Deduplication lemmas -/

theorem dedupGo_sublist : ∀ (l : List Finding) (seen : List (List Int × String)),
    List.Sublist (dedupGo l seen) l
  | [], _ => by simp [dedupGo]
  | i :: rest, seen => by
    rw [dedupGo]
    by_cases h : dedupKey i ∈ seen
    · rw [if_pos h]
      exact (dedupGo_sublist rest seen).cons i
    · rw [if_neg h]
      exact (dedupGo_sublist rest (dedupKey i :: seen)).cons₂ i

theorem deduplicate_items_sublist (l : List Finding) :
    List.Sublist (deduplicate_items l) l :=
  dedupGo_sublist l []

theorem dedupGo_filter_key (k : List Int × String) :
    ∀ (l : List Finding) (seen : List (List Int × String)),
    (dedupGo l seen).filter (fun f => dedupKey f = k)
      = if k ∈ seen then [] else (l.filter (fun f => dedupKey f = k)).take 1
  | [], seen => by simp [dedupGo]
  | i :: rest, seen => by
    rw [dedupGo]
    by_cases hik : dedupKey i ∈ seen
    · rw [if_pos hik, dedupGo_filter_key k rest seen]
      by_cases hks : k ∈ seen
      · simp [hks]
      · have hne : ¬ (dedupKey i = k) := fun h => hks (h ▸ hik)
        simp [hks, List.filter_cons, hne]
    · rw [if_neg hik]
      by_cases hk : dedupKey i = k
      · subst hk
        simp [List.filter_cons, dedupGo_filter_key (dedupKey i) rest (dedupKey i :: seen),
          hik]
      · have hk' : ¬ (k = dedupKey i) := fun h => hk h.symm
        simp [List.filter_cons, hk, hk', List.mem_cons,
          dedupGo_filter_key k rest (dedupKey i :: seen)]

/-- The `seen` set accumulated by `dedupGo` over a list. -/
def seenAcc : List Finding → List (List Int × String) → List (List Int × String)
  | [], s => s
  | i :: rest, s =>
    if dedupKey i ∈ s then seenAcc rest s else seenAcc rest (dedupKey i :: s)

theorem dedupGo_append : ∀ (a b : List Finding) (s : List (List Int × String)),
    dedupGo (a ++ b) s = dedupGo a s ++ dedupGo b (seenAcc a s)
  | [], b, s => by simp [dedupGo, seenAcc]
  | i :: rest, b, s => by
    by_cases h : dedupKey i ∈ s <;>
      simp [dedupGo, seenAcc, h, dedupGo_append rest b]

theorem mem_seenAcc_of_mem : ∀ (a : List Finding) (s : List (List Int × String))
    (x : List Int × String), x ∈ s → x ∈ seenAcc a s
  | [], _, _, hx => hx
  | i :: rest, s, x, hx => by
    rw [seenAcc]
    by_cases h : dedupKey i ∈ s
    · exact if_pos h ▸ mem_seenAcc_of_mem rest s x hx
    · exact if_neg h ▸ mem_seenAcc_of_mem rest _ x (List.mem_cons_of_mem _ hx)

theorem key_mem_seenAcc : ∀ (a : List Finding) (s : List (List Int × String))
    (f : Finding), f ∈ a → dedupKey f ∈ seenAcc a s
  | [], _, _, hf => absurd hf (List.not_mem_nil _)
  | i :: rest, s, f, hf => by
    rw [seenAcc]
    rcases List.mem_cons.mp hf with rfl | hf'
    · by_cases h : dedupKey f ∈ s
      · exact if_pos h ▸ mem_seenAcc_of_mem rest s _ h
      · exact if_neg h ▸ mem_seenAcc_of_mem rest _ _ (List.mem_cons_self _ _)
    · by_cases h : dedupKey i ∈ s
      · exact if_pos h ▸ key_mem_seenAcc rest s f hf'
      · exact if_neg h ▸ key_mem_seenAcc rest _ f hf'

theorem dedupGo_eq_nil_of_seen : ∀ (b : List Finding) (s : List (List Int × String)),
    (∀ f ∈ b, dedupKey f ∈ s) → dedupGo b s = []
  | [], _, _ => rfl
  | i :: rest, s, h => by
    have hi : dedupKey i ∈ s := h i (List.mem_cons_self _ _)
    rw [dedupGo, if_pos hi]
    exact dedupGo_eq_nil_of_seen rest s fun f hf => h f (List.mem_cons_of_mem _ hf)

/-! ## Claim theorems: reconciliation (C2, C6, C10, C5) -/

/-- C2: for every pair of category maps, reconciliation concatenates the two
lists per category with rule-based items first and deduplicates; for each
dedup key only the first occurrence is kept (in relative order: the result
is a sublist of the concatenation); in particular, for rule list `[A, B]`
and AI list `[B', C]` where `B` and `B'` share a dedup key (all other keys
distinct), the merged result is `[A, B, C]`. -/
theorem combine_results_dedups_rule_first (rule ai : CategoryMap) :
    combine_results rule ai =
      { numerical_conflicts :=
          deduplicate_items (rule.numerical_conflicts ++ ai.numerical_conflicts)
        contradictory_statements :=
          deduplicate_items (rule.contradictory_statements ++ ai.contradictory_statements)
        timeline_issues :=
          deduplicate_items (rule.timeline_issues ++ ai.timeline_issues)
        logical_inconsistencies :=
          deduplicate_items (rule.logical_inconsistencies ++ ai.logical_inconsistencies) }
    ∧ (∀ l : List Finding, List.Sublist (deduplicate_items l) l)
    ∧ (∀ (l : List Finding) (k : List Int × String),
        (deduplicate_items l).filter (fun f => dedupKey f = k)
          = (l.filter (fun f => dedupKey f = k)).take 1)
    ∧ (∀ A B B' C : Finding, dedupKey B' = dedupKey B → dedupKey A ≠ dedupKey B →
        dedupKey C ≠ dedupKey A → dedupKey C ≠ dedupKey B →
        deduplicate_items ([A, B] ++ [B', C]) = [A, B, C]) := by
  refine ⟨rfl, deduplicate_items_sublist, ?_, ?_⟩
  · intro l k
    simpa using dedupGo_filter_key k l []
  · intro A B B' C hBB hAB hCA hCB
    simp [deduplicate_items, dedupGo, hBB, hAB, hCA, hCB, Ne.symm hAB]

def exFindingA : Finding := ⟨[1], "first finding", some "high", "revenue_conflict"⟩
def exFindingB : Finding := ⟨[2, 3], "shared finding", some "high", "revenue_conflict"⟩
def exFindingB' : Finding := ⟨[3, 2], "SHARED FINDING", some "low", "ai"⟩
def exFindingC : Finding := ⟨[4], "third finding", none, "ai"⟩

theorem combine_results_dedups_rule_first_witness :
    deduplicate_items ([exFindingA, exFindingB] ++ [exFindingB', exFindingC])
      = [exFindingA, exFindingB, exFindingC] :=
  (combine_results_dedups_rule_first emptyCategoryMap emptyCategoryMap).2.2.2
    exFindingA exFindingB exFindingB' exFindingC
    (by decide) (by decide) (by decide) (by decide)

/-- C6: deduplication is idempotent in the sense that reconciling a list
against itself collapses the second copy entirely:
`dedup (x ++ x) = dedup x`. -/
theorem deduplicate_items_self_append (x : List Finding) :
    deduplicate_items (x ++ x) = deduplicate_items x := by
  rw [deduplicate_items, dedupGo_append,
    dedupGo_eq_nil_of_seen x (seenAcc x []) (fun f hf => key_mem_seenAcc x [] f hf),
    List.append_nil]
  rfl

/-- C10: rule-based detection never populates `logical_inconsistencies`, so
every finding in that category of a combined result comes from the AI map. -/
theorem rule_based_logical_inconsistencies_empty (slides : SlidesData) :
    (rule_based_detection slides).logical_inconsistencies = []
    ∧ ∀ (ai : CategoryMap) (f : Finding),
        f ∈ (combine_results (rule_based_detection slides) ai).logical_inconsistencies →
        f ∈ ai.logical_inconsistencies := by
  refine ⟨rfl, fun ai f hf => ?_⟩
  have : f ∈ deduplicate_items ai.logical_inconsistencies := by
    simpa [combine_results, rule_based_detection] using hf
  exact (deduplicate_items_sublist ai.logical_inconsistencies).subset this

def exAIOnlyFinding : Finding := ⟨[2], "ai only", some "low", "logical"⟩

theorem rule_based_logical_inconsistencies_empty_witness :
    exAIOnlyFinding ∈ ([exAIOnlyFinding] : List Finding) :=
  (rule_based_logical_inconsistencies_empty []).2 ⟨[], [], [], [exAIOnlyFinding]⟩
    exAIOnlyFinding (by decide)

/-- C5: an error-tagged AI analysis contributes nothing: the combined result
is the deduplicated rule-based findings alone and `ai_based_count = 0`. -/
theorem detect_inconsistencies_ai_error (slides : SlidesData) (ai : AIAnalysis)
    (h : ai.error.isSome) :
    extract_ai_results ai = emptyCategoryMap
    ∧ (detect_inconsistencies slides ai).inconsistencies =
        { numerical_conflicts :=
            deduplicate_items (rule_based_detection slides).numerical_conflicts
          contradictory_statements :=
            deduplicate_items (rule_based_detection slides).contradictory_statements
          timeline_issues :=
            deduplicate_items (rule_based_detection slides).timeline_issues
          logical_inconsistencies :=
            deduplicate_items (rule_based_detection slides).logical_inconsistencies }
    ∧ (detect_inconsistencies slides ai).ai_based_count = 0 := by
  have he : extract_ai_results ai = emptyCategoryMap := by
    simp [extract_ai_results, h]
  refine ⟨he, ?_, ?_⟩
  · simp [detect_inconsistencies, he, combine_results, emptyCategoryMap]
  · simp [detect_inconsistencies, he, flatten_inconsistencies, emptyCategoryMap]

theorem detect_inconsistencies_ai_error_witness :
    (detect_inconsistencies [] ⟨some "No API key available", none⟩).ai_based_count = 0 :=
  (detect_inconsistencies_ai_error [] ⟨some "No API key available", none⟩ (by decide)).2.2

/-! ## Claim theorems: orchestration and parsing (C4, C8) -/

/-- C4: a run produces exactly one of a `DetectResult` or an
`IntelligenceReport`: an intelligence-shaped AI response bypasses
reconciliation and is passed through to rendering; an error or legacy
response yields the reconciled `DetectResult`. -/
theorem run_results_exactly_one (slides : SlidesData) (o : AnalyzeOutcome) :
    (xor (run_results slides o).isLeft (run_results slides o).isRight) = true
    ∧ (∀ r, run_results slides (AnalyzeOutcome.intelligence r) = Sum.inr r)
    ∧ (∀ e, run_results slides (AnalyzeOutcome.err e)
        = Sum.inl (detect_inconsistencies slides ⟨none, none⟩))
    ∧ (∀ inc, run_results slides (AnalyzeOutcome.legacy inc)
        = Sum.inl (detect_inconsistencies slides ⟨none, some inc⟩)) := by
  refine ⟨?_, fun r => rfl, fun e => rfl, fun inc => rfl⟩
  cases o <;> rfl

/-- C8: when every parsing strategy fails (`_robust_json_parse` returns no
parsed object), response parsing returns the default empty intelligence
report and never raises. -/
theorem parse_falls_back_to_empty_report (loads : String → Option ParsedDoc)
    (text : String) (h : robust_json_parse loads text = none) :
    parse_analysis_text loads text = ParsedResult.report get_empty_intelligence_report := by
  simp [parse_analysis_text, h, extract_intelligence_from_text]

/-- A `json.loads` oracle on which every candidate string is malformed. -/
def loadsNone : String → Option ParsedDoc := fun _ => none

theorem parse_falls_back_to_empty_report_witness :
    robust_json_parse loadsNone "complete gibberish &#!@" = none
    ∧ parse_analysis_text loadsNone "complete gibberish &#!@"
        = ParsedResult.report get_empty_intelligence_report :=
  ⟨rfl, parse_falls_back_to_empty_report loadsNone "complete gibberish &#!@" rfl⟩

/-! ## Summary counting lemmas and C3 -/

theorem sumCounts_incrCount : ∀ (m : List (String × Nat)) (k : String),
    sumCounts (incrCount m k) = sumCounts m + 1
  | [], k => by simp [incrCount, sumCounts]
  | (k', n) :: rest, k => by
    by_cases h : k' = k
    · simp [incrCount, h, sumCounts]
      omega
    · have ih := sumCounts_incrCount rest k
      simp [incrCount, h, sumCounts] at ih ⊢
      omega

theorem lookupCount_incrCount : ∀ (m : List (String × Nat)) (k k' : String),
    lookupCount k (incrCount m k') = lookupCount k m + if k' = k then 1 else 0
  | [], k, k' => by
    by_cases h : k' = k <;> simp [incrCount, lookupCount, h]
  | (a, n) :: rest, k, k' => by
    by_cases ha : a = k'
    · subst ha
      by_cases hk : a = k <;> simp [incrCount, lookupCount, hk]
    · by_cases hk : a = k
      · subst hk
        have : ¬ (k' = a) := fun h => ha h.symm
        simp [incrCount, lookupCount, ha, this]
      · simp [incrCount, lookupCount, ha, hk, lookupCount_incrCount rest k k']

theorem sumCounts_severity_foldl : ∀ (l : List Finding) (acc : List (String × Nat)),
    sumCounts (l.foldl (fun m f => incrCount m (severityKey f)) acc)
      = sumCounts acc + l.length
  | [], acc => by simp
  | f :: rest, acc => by
    rw [List.foldl_cons, sumCounts_severity_foldl rest (incrCount acc (severityKey f)),
      sumCounts_incrCount, List.length_cons]
    omega

theorem lookupCount_severity_foldl (k : String) :
    ∀ (l : List Finding) (acc : List (String × Nat)),
    lookupCount k (l.foldl (fun m f => incrCount m (severityKey f)) acc)
      = lookupCount k acc + (l.filter (fun f => severityKey f = k)).length
  | [], acc => by simp
  | f :: rest, acc => by
    rw [List.foldl_cons, lookupCount_severity_foldl k rest _, lookupCount_incrCount]
    by_cases h : severityKey f = k
    · simp [List.filter_cons, h]
      omega
    · simp [List.filter_cons, h]

/-- C3: the summary is internally consistent: the category breakdown (which
lists all four categories, including zero counts) and the severity breakdown
(which buckets findings without a severity under `unknown`) both sum to the
total finding count, and each severity bucket counts exactly the findings
whose (defaulted) severity label is that bucket's key. -/
theorem calculate_summary_consistent (m : CategoryMap) (slides : SlidesData) :
    sumCounts (calculate_summary m slides).category_breakdown
        = (calculate_summary m slides).inconsistencies_found
    ∧ sumCounts (calculate_summary m slides).severity_breakdown
        = (calculate_summary m slides).inconsistencies_found
    ∧ (∀ k : String, lookupCount k (calculate_summary m slides).severity_breakdown
        = ((flatten_inconsistencies m).filter (fun f => severityKey f = k)).length)
    ∧ (calculate_summary m slides).category_breakdown
        = [("numerical_conflicts", m.numerical_conflicts.length),
           ("contradictory_statements", m.contradictory_statements.length),
           ("timeline_issues", m.timeline_issues.length),
           ("logical_inconsistencies", m.logical_inconsistencies.length)] := by
  refine ⟨?_, ?_, ?_, rfl⟩
  · simp [calculate_summary, sumCounts]
    omega
  · rw [calculate_summary]
    rw [sumCounts_severity_foldl (flatten_inconsistencies m) []]
    simp [sumCounts, flatten_inconsistencies, calculate_summary]
    omega
  · intro k
    rw [calculate_summary]
    rw [lookupCount_severity_foldl k (flatten_inconsistencies m) []]
    simp [lookupCount]

/-! ## Contradiction scan lemmas and C7 -/

theorem contradictionDescs_pairwise :
    (contradictionPatterns.map contradictionDesc).Pairwise (· ≠ ·) := by
  decide

theorem filter_contradiction_nil (slides : SlidesData) (d : String) :
    ∀ L : List (String × String × String), (∀ q ∈ L, contradictionDesc q ≠ d) →
    (L.filterMap (contradictionFindingFor slides)).filter (fun f => f.description = d) = []
  | [], _ => rfl
  | q :: L', h => by
    have hq : contradictionDesc q ≠ d := h q (List.mem_cons_self _ _)
    have ih := filter_contradiction_nil slides d L'
      (fun q' hq' => h q' (List.mem_cons_of_mem _ hq'))
    by_cases hc : slidesWith q.1 slides ≠ [] ∧ slidesWith q.2.1 slides ≠ []
    · simp [List.filterMap_cons, contradictionFindingFor, hc, List.filter_cons, hq, ih]
    · simp [List.filterMap_cons, contradictionFindingFor, hc, ih]

theorem filter_contradiction_eq (slides : SlidesData) :
    ∀ (L : List (String × String × String)) (p : String × String × String),
    (L.map contradictionDesc).Pairwise (· ≠ ·) → p ∈ L →
    (L.filterMap (contradictionFindingFor slides)).filter
        (fun f => f.description = contradictionDesc p)
      = if slidesWith p.1 slides ≠ [] ∧ slidesWith p.2.1 slides ≠ []
        then [⟨slidesWith p.1 slides ++ slidesWith p.2.1 slides, contradictionDesc p,
              some "high", "contradictory_statements"⟩]
        else []
  | [], p, _, hp => absurd hp (List.not_mem_nil _)
  | q :: L', p, hpair, hp => by
    have hhead : ∀ d ∈ L'.map contradictionDesc, contradictionDesc q ≠ d :=
      (List.pairwise_cons.mp (by simpa using hpair)).1
    have htail : (L'.map contradictionDesc).Pairwise (· ≠ ·) :=
      (List.pairwise_cons.mp (by simpa using hpair)).2
    rcases List.mem_cons.mp hp with rfl | hp'
    · have hnil : (L'.filterMap (contradictionFindingFor slides)).filter
          (fun f => f.description = contradictionDesc p) = [] :=
        filter_contradiction_nil slides (contradictionDesc p) L'
          (fun q' hq' => fun he =>
            hhead (contradictionDesc q') (List.mem_map_of_mem _ hq') he.symm)
      by_cases hc : slidesWith p.1 slides ≠ [] ∧ slidesWith p.2.1 slides ≠ []
      · simp [List.filterMap_cons, contradictionFindingFor, hc, List.filter_cons, hnil]
      · simp [List.filterMap_cons, contradictionFindingFor, hc, hnil]
    · have hqp : contradictionDesc q ≠ contradictionDesc p :=
        hhead (contradictionDesc p) (List.mem_map_of_mem _ hp')
      have ih := filter_contradiction_eq slides L' p htail hp'
      by_cases hc : slidesWith q.1 slides ≠ [] ∧ slidesWith q.2.1 slides ≠ []
      · simp [List.filterMap_cons, contradictionFindingFor, hc, List.filter_cons, hqp, ih]
      · simp [List.filterMap_cons, contradictionFindingFor, hc, ih]

/-- C7: for each entry `(phraseA, phraseB, context)` of the contradiction
table, the scan emits exactly one finding for that entry iff the slides
containing `phraseA` (in lowercased joined text) and those containing
`phraseB` are both non-empty, and that finding's `slide_numbers` is the
concatenation of the two slide lists (duplicates across the lists kept),
with severity `high` and type `contradictory_statements`. -/
theorem contradiction_scan_per_pattern (slides : SlidesData)
    (p : String × String × String) (hp : p ∈ contradictionPatterns) :
    (detect_contradictory_statements slides).filter
        (fun f => f.description = contradictionDesc p)
      = if slidesWith p.1 slides ≠ [] ∧ slidesWith p.2.1 slides ≠ []
        then [⟨slidesWith p.1 slides ++ slidesWith p.2.1 slides, contradictionDesc p,
              some "high", "contradictory_statements"⟩]
        else [] :=
  filter_contradiction_eq slides contradictionPatterns p contradictionDescs_pairwise hp

/-- The spec's contradictory-statement example: slide 2 and slide 5. -/
def c7ExampleSlides : SlidesData :=
  [(2, mkSlideData ["we are in a highly competitive market"]),
   (5, mkSlideData ["there are few competitors in this space"])]

theorem contradiction_scan_per_pattern_witness :
    (detect_contradictory_statements c7ExampleSlides).filter
        (fun f => f.description =
          contradictionDesc ("highly competitive", "few competitors", "market competition"))
      = [⟨[2, 5],
          contradictionDesc ("highly competitive", "few competitors", "market competition"),
          some "high", "contradictory_statements"⟩] :=
  (contradiction_scan_per_pattern c7ExampleSlides
    ("highly competitive", "few competitors", "market competition")
    (by decide)).trans (by decide)

/-! ## Percentage shape lemmas and C9 -/

/-- Does the head of the list satisfy `p`? -/
def headSat (p : Char → Bool) : List Char → Bool
  | [] => false
  | c :: _ => p c

theorem takeWhile_append_of (p : Char → Bool) :
    ∀ (a b : List Char), (∀ c ∈ a, p c = true) → headSat p b = false →
    (a ++ b).takeWhile p = a ∧ (a ++ b).dropWhile p = b
  | [], b, _, hb => by
    cases b with
    | nil => simp
    | cons c cs => simp_all [headSat, List.takeWhile_cons, List.dropWhile_cons]
  | x :: a, b, ha, hb => by
    have hx : p x = true := ha x (List.mem_cons_self _ _)
    have ih := takeWhile_append_of p a b (fun c hc => ha c (List.mem_cons_of_mem _ hc)) hb
    simp [List.takeWhile_cons, List.dropWhile_cons, hx, ih.1, ih.2]

theorem not_digit_of_ws {c : Char} (h : isWsChar c = true) : c.isDigit = false := by
  simp [isWsChar] at h
  rcases h with ((((rfl | rfl) | rfl) | rfl) | rfl) | rfl <;> rfl

/-- Stated from the spec's words, for comparison with the code: a number
(integer or decimal) *immediately* followed by `%`, as the whole string. -/
def specNumberImmediatelyPct (s : String) : Bool :=
  let ds := s.data.takeWhile Char.isDigit
  let r := s.data.dropWhile Char.isDigit
  !ds.isEmpty &&
    (r = ['%'] ||
      (match r with
       | '.' :: r2 =>
         !(r2.takeWhile Char.isDigit).isEmpty && r2.dropWhile Char.isDigit = ['%']
       | _ => false))

/-- The amended shape: a number (integer or decimal) followed by optional
whitespace and then `%`, as the whole string. -/
def specNumberWsPct (s : String) : Bool :=
  let ds := s.data.takeWhile Char.isDigit
  let r := s.data.dropWhile Char.isDigit
  !ds.isEmpty &&
    (r.dropWhile isWsChar = ['%'] ||
      (match r with
       | '.' :: r2 =>
         !(r2.takeWhile Char.isDigit).isEmpty
           && (r2.dropWhile Char.isDigit).dropWhile isWsChar = ['%']
       | _ => false))

theorem pctTryTail_shape (ds dec r' m rest : List Char)
    (hds : ∀ c ∈ ds, c.isDigit = true) (hne : ds.isEmpty = false)
    (hdec : dec = [] ∨ ∃ ds2, dec = '.' :: ds2 ∧ ds2.isEmpty = false
      ∧ ∀ c ∈ ds2, c.isDigit = true)
    (h : pctTryTail ds dec r' = some (m, rest)) :
    specNumberWsPct (String.mk m) = true ∧ m.getLast? = some '%' := by
  rw [pctTryTail] at h
  split at h
  case h_2 => exact absurd h (by simp)
  case h_1 rest' heq =>
    obtain ⟨rfl, rfl⟩ : ds ++ dec ++ r'.takeWhile isWsChar ++ ['%'] = m ∧ rest' = rest := by
      simpa using h
    set ws := r'.takeWhile isWsChar with hws_def
    have hws : ∀ c ∈ ws, isWsChar c = true := fun c hc => List.mem_takeWhile_imp hc
    have hheadtail : headSat Char.isDigit (ws ++ ['%']) = false := by
      cases hw : ws with
      | nil => decide
      | cons w ws' =>
        have : isWsChar w = true := hws w (by simp [hw])
        simp [headSat, not_digit_of_ws this]
    have hdropws : (ws ++ ['%']).dropWhile isWsChar = ['%'] :=
      (takeWhile_append_of isWsChar ws ['%'] hws (by decide)).2
    constructor
    · rcases hdec with rfl | ⟨ds2, rfl, hds2ne, hds2⟩
      · have hsplit := takeWhile_append_of Char.isDigit ds (ws ++ ['%']) hds hheadtail
        rw [specNumberWsPct]
        simp only [List.append_nil, List.append_assoc]
        rw [hsplit.1, hsplit.2]
        simp [hne, hdropws]
      · have hhead2 : headSat Char.isDigit ('.' :: (ds2 ++ (ws ++ ['%']))) = false := by
          simp [headSat]
        have hsplit := takeWhile_append_of Char.isDigit ds
          ('.' :: (ds2 ++ (ws ++ ['%']))) hds hhead2
        have hsplit2 := takeWhile_append_of Char.isDigit ds2 (ws ++ ['%']) hds2 hheadtail
        rw [specNumberWsPct]
        simp only [List.append_assoc, List.cons_append]
        rw [hsplit.1, hsplit.2]
        simp [hne, hsplit2.1, hsplit2.2, hds2ne, hdropws]
    · rw [show ds ++ dec ++ ws ++ ['%'] = (ds ++ dec ++ ws) ++ ['%'] by simp]
      exact List.getLast?_concat _

theorem pctMatchAt_shape (l m r : List Char) (h : pctMatchAt l = some (m, r)) :
    specNumberWsPct (String.mk m) = true ∧ m.getLast? = some '%' := by
  rw [pctMatchAt] at h
  by_cases hds : (l.takeWhile Char.isDigit).isEmpty
  · simp [hds] at h
  · have hdigit : ∀ c ∈ l.takeWhile Char.isDigit, c.isDigit = true :=
      fun c hc => List.mem_takeWhile_imp hc
    have hne : (l.takeWhile Char.isDigit).isEmpty = false := by
      simpa using hds
    rw [if_neg hds] at h
    split at h
    next r2 heq =>
      by_cases hd2 : (r2.takeWhile Char.isDigit).isEmpty
      · rw [if_pos hd2] at h
        exact pctTryTail_shape _ _ _ _ _ hdigit hne (Or.inl rfl) h
      · rw [if_neg hd2] at h
        split at h
        next res hres =>
          obtain rfl : res = (m, r) := by simpa using h
          exact pctTryTail_shape _ _ _ _ _ hdigit hne
            (Or.inr ⟨r2.takeWhile Char.isDigit, rfl, by simpa using hd2,
              fun c hc => List.mem_takeWhile_imp hc⟩) hres
        next =>
          exact pctTryTail_shape _ _ _ _ _ hdigit hne (Or.inl rfl) h
    next =>
      exact pctTryTail_shape _ _ _ _ _ hdigit hne (Or.inl rfl) h

theorem scan_pct_shape : ∀ (fuel : Nat) (prev : Option Char) (l m : List Char),
    m ∈ scanMatches (fun _ => pctMatchAt) fuel prev l →
    specNumberWsPct (String.mk m) = true ∧ m.getLast? = some '%'
  | 0, _, _, m, h => by simp [scanMatches] at h
  | _ + 1, _, [], m, h => by simp [scanMatches] at h
  | fuel + 1, prev, c :: rest, m, h => by
    rw [scanMatches] at h
    cases hm : pctMatchAt (c :: rest) with
    | none =>
      rw [hm] at h
      exact scan_pct_shape fuel (some c) rest m h
    | some pr =>
      obtain ⟨m0, r0⟩ := pr
      rw [hm] at h
      simp only [] at h
      rcases List.mem_cons.mp h with rfl | h'
      · exact pctMatchAt_shape (c :: rest) m r0 hm
      · exact scan_pct_shape fuel m0.getLast? r0 m h'

/-- C9 (amended): every entry of the `percentages` sequence is a number
(integer or decimal) followed by *optional whitespace* and then `%`; in
particular every entry ends with the character `%`.  (The claim's
"immediately followed by `%`" fails: the pattern's `\s*` admits whitespace
before the `%`.) -/
theorem percentage_entries_end_with_pct (text : String) :
    ∀ p ∈ (extract_numbers_and_dates text).percentages,
      specNumberWsPct p = true ∧ p.data.getLast? = some '%' := by
  intro p hp
  by_cases ht : text = ""
  · subst ht
    simp [extract_numbers_and_dates] at hp
  · rw [extract_numbers_and_dates, if_neg ht] at hp
    obtain ⟨m, hm, rfl⟩ := List.mem_map.mp hp
    exact scan_pct_shape _ none text.data m hm

theorem percentage_entries_end_with_pct_witness :
    specNumberWsPct "12.5%" = true ∧ ("12.5%" : String).data.getLast? = some '%' :=
  percentage_entries_end_with_pct "grew 12.5% this year" "12.5%" (by decide)

/-- C9 counterexample: on input `"25 %"` the percentage scan emits the entry
`"25 %"`, which is not a number *immediately* followed by `%` (there is
whitespace in between), refuting the claim as stated; the entry still ends
with `%`. -/
theorem percentage_immediate_counterexample :
    (extract_numbers_and_dates "25 %").percentages = ["25 %"]
    ∧ specNumberImmediatelyPct "25 %" = false
    ∧ ("25 %" : String).data.getLast? = some '%' := by
  decide

/-! ## Numerical grouping lemmas and C1 -/

/-- Lookup in a grouping association list (first entry with the key; `[]`
for an absent key). -/
def groupLookup (v : String) : Groups → List Int
  | [] => []
  | (k, l) :: rest => if k = v then l else groupLookup v rest

/-- The context-gated occurrence list of value `v`: for each slide in order
whose lowercased text has a context keyword, one entry of the slide's
number per occurrence of `v` in the selected fact field. -/
def occSlideList (field : SlideData → List String) (kws : List String) :
    SlidesData → String → List Int
  | [], _ => []
  | p :: slides, v =>
    (if hasKw kws (slideLower p.2)
     then List.replicate ((field p.2).countP (fun w => w = v)) p.1
     else [])
      ++ occSlideList field kws slides v

theorem groupLookup_addOcc : ∀ (g : Groups) (k : String) (n : Int) (v : String),
    groupLookup v (addOcc g k n)
      = if k = v then groupLookup v g ++ [n] else groupLookup v g
  | [], k, n, v => by
    by_cases h : k = v <;> simp [addOcc, groupLookup, h]
  | (k', l) :: rest, k, n, v => by
    by_cases hk : k' = k
    · subst hk
      by_cases hv : k' = v <;> simp [addOcc, groupLookup, hv]
    · by_cases hv : k' = v
      · subst hv
        have h1 : ¬ (k = k') := fun h => hk h.symm
        simp [addOcc, groupLookup, hk, h1]
      · simp [addOcc, groupLookup, hk, hv, groupLookup_addOcc rest k n v]

theorem groupLookup_valsFold (n : Int) (v : String) :
    ∀ (vals : List String) (g : Groups),
    groupLookup v (vals.foldl (fun g' w => addOcc g' w n) g)
      = groupLookup v g ++ List.replicate (vals.countP (fun w => w = v)) n
  | [], g => by simp
  | w :: vals, g => by
    rw [List.foldl_cons, groupLookup_valsFold n v vals (addOcc g w n),
      groupLookup_addOcc]
    by_cases hw : w = v
    · simp [hw, List.countP_cons, List.replicate_succ, List.append_assoc]
    · simp [hw, List.countP_cons]

theorem groupLookup_collect (field : SlideData → List String) (kws : List String)
    (v : String) : ∀ (slides : SlidesData) (g : Groups),
    groupLookup v (slides.foldl
        (fun g' p => if hasKw kws (slideLower p.2)
          then (field p.2).foldl (fun g'' w => addOcc g'' w p.1) g'
          else g') g)
      = groupLookup v g ++ occSlideList field kws slides v
  | [], g => by simp [occSlideList]
  | p :: slides, g => by
    rw [List.foldl_cons]
    by_cases hp : hasKw kws (slideLower p.2)
    · rw [if_pos hp, groupLookup_collect field kws v slides _, groupLookup_valsFold]
      simp [occSlideList, hp, List.append_assoc]
    · rw [if_neg hp, groupLookup_collect field kws v slides g]
      simp [occSlideList, hp]

theorem groupLookup_collectGroups (field : SlideData → List String)
    (kws : List String) (slides : SlidesData) (v : String) :
    groupLookup v (collectGroups field kws slides)
      = occSlideList field kws slides v := by
  rw [collectGroups, groupLookup_collect]
  simp [groupLookup]

def groupKeys (g : Groups) : List String := g.map (·.1)

theorem groupKeys_addOcc : ∀ (g : Groups) (k : String) (n : Int),
    groupKeys (addOcc g k n)
      = if k ∈ groupKeys g then groupKeys g else groupKeys g ++ [k]
  | [], k, n => by simp [addOcc, groupKeys]
  | (k', l) :: rest, k, n => by
    by_cases hk : k' = k
    · subst hk
      rw [addOcc, if_pos rfl, if_pos (show k' ∈ groupKeys ((k', l) :: rest) by
        simp [groupKeys])]
      rfl
    · have hk' : ¬ (k = k') := fun h => hk h.symm
      rw [addOcc, if_neg hk,
        show groupKeys ((k', l) :: addOcc rest k n)
          = k' :: groupKeys (addOcc rest k n) from rfl,
        show groupKeys ((k', l) :: rest) = k' :: groupKeys rest from rfl,
        groupKeys_addOcc rest k n]
      by_cases hmem : k ∈ groupKeys rest
      · rw [if_pos hmem, if_pos (by simp [List.mem_cons, hmem])]
      · rw [if_neg hmem, if_neg (by simp [List.mem_cons, hk', hmem])]
        rfl

theorem nodup_groupKeys_addOcc {g : Groups} (h : (groupKeys g).Nodup)
    (k : String) (n : Int) : (groupKeys (addOcc g k n)).Nodup := by
  rw [groupKeys_addOcc]
  by_cases hmem : k ∈ groupKeys g
  · simpa [hmem] using h
  · rw [if_neg hmem]
    refine List.nodup_append.mpr ⟨h, List.nodup_singleton k, fun a ha ha' => ?_⟩
    have : a = k := by simpa using ha'
    exact hmem (this ▸ ha)

theorem nodup_groupKeys_valsFold (n : Int) : ∀ (vals : List String) (g : Groups),
    (groupKeys g).Nodup →
    (groupKeys (vals.foldl (fun g' w => addOcc g' w n) g)).Nodup
  | [], g, h => h
  | w :: vals, g, h => by
    rw [List.foldl_cons]
    exact nodup_groupKeys_valsFold n vals _ (nodup_groupKeys_addOcc h w n)

theorem nodup_groupKeys_collect (field : SlideData → List String)
    (kws : List String) : ∀ (slides : SlidesData) (g : Groups),
    (groupKeys g).Nodup →
    (groupKeys (slides.foldl
        (fun g' p => if hasKw kws (slideLower p.2)
          then (field p.2).foldl (fun g'' w => addOcc g'' w p.1) g'
          else g') g)).Nodup
  | [], _, h => h
  | p :: slides, g, h => by
    rw [List.foldl_cons]
    by_cases hp : hasKw kws (slideLower p.2)
    · rw [if_pos hp]
      exact nodup_groupKeys_collect field kws slides _
        (nodup_groupKeys_valsFold p.1 (field p.2) g h)
    · rw [if_neg hp]
      exact nodup_groupKeys_collect field kws slides g h

theorem nodup_groupKeys_collectGroups (field : SlideData → List String)
    (kws : List String) (slides : SlidesData) :
    (groupKeys (collectGroups field kws slides)).Nodup :=
  nodup_groupKeys_collect field kws slides [] (by simp [groupKeys])

theorem mem_groups_iff : ∀ (g : Groups), (groupKeys g).Nodup →
    ∀ (v : String) (l : List Int),
    ((v, l) ∈ g ↔ v ∈ groupKeys g ∧ l = groupLookup v g)
  | [], _, v, l => by simp [groupKeys, groupLookup]
  | (k', l') :: rest, h, v, l => by
    have hcons : (k' :: groupKeys rest).Nodup := h
    have hk' : k' ∉ groupKeys rest := (List.nodup_cons.mp hcons).1
    have hrest : (groupKeys rest).Nodup := (List.nodup_cons.mp hcons).2
    have hkeys : groupKeys ((k', l') :: rest) = k' :: groupKeys rest := rfl
    constructor
    · intro hm
      rcases List.mem_cons.mp hm with heq | hm'
      · have hv : v = k' := congrArg Prod.fst heq
        have hl : l = l' := congrArg Prod.snd heq
        subst hv
        subst hl
        simp [hkeys, groupLookup]
      · obtain ⟨hv, hl⟩ := (mem_groups_iff rest hrest v l).mp hm'
        have hne : ¬ (k' = v) := fun hh => hk' (hh ▸ hv)
        rw [hkeys, groupLookup, if_neg hne]
        exact ⟨List.mem_cons_of_mem _ hv, hl⟩
    · rintro ⟨hv, rfl⟩
      rw [hkeys] at hv
      rcases List.mem_cons.mp hv with rfl | hv'
      · simp [groupLookup]
      · have hne : ¬ (k' = v) := fun hh => hk' (hh ▸ hv')
        rw [groupLookup, if_neg hne]
        exact List.mem_cons_of_mem _
          ((mem_groups_iff rest hrest v _).mpr ⟨hv', rfl⟩)

theorem mem_keys_of_lookup_ne_nil : ∀ (g : Groups) (v : String),
    groupLookup v g ≠ [] → v ∈ groupKeys g
  | [], v, h => absurd rfl h
  | (k', l') :: rest, v, h => by
    by_cases hk : k' = v
    · simp [groupKeys, hk]
    · rw [groupLookup, if_neg hk] at h
      simp [groupKeys, List.mem_cons]
      exact Or.inr (by simpa [groupKeys] using mem_keys_of_lookup_ne_nil rest v h)

theorem mem_conflictsOf {g : Groups} {mkF : String → List Int → Finding} {f : Finding} :
    f ∈ conflictsOf g mkF ↔ ∃ v l, (v, l) ∈ g ∧ 1 < l.length ∧ f = mkF v l := by
  constructor
  · intro h
    obtain ⟨⟨v, l⟩, hmem, hfn⟩ := List.mem_filterMap.mp h
    by_cases hl : 1 < l.length
    · refine ⟨v, l, hmem, hl, ?_⟩
      simp only [conflictsOf] at hfn
      simp [hl] at hfn
      exact hfn.symm
    · simp [hl] at hfn
  · rintro ⟨v, l, hmem, hl, rfl⟩
    exact List.mem_filterMap.mpr ⟨(v, l), hmem, by simp [hl]⟩

theorem conflictsOf_lookup_iff (g : Groups) (hg : (groupKeys g).Nodup)
    (mkF : String → List Int → Finding)
    (hmk : ∀ v l, (mkF v l).slide_numbers = l) (v : String) :
    (mkF v (groupLookup v g) ∈ conflictsOf g mkF ↔ 2 ≤ (groupLookup v g).length) := by
  constructor
  · intro h
    obtain ⟨v', l', hmem, hl, heq⟩ := mem_conflictsOf.mp h
    have hsl : groupLookup v g = l' := by
      have := congrArg Finding.slide_numbers heq
      rwa [hmk, hmk] at this
    rw [hsl]
    omega
  · intro h
    have hne : groupLookup v g ≠ [] := by
      intro hnil
      rw [hnil] at h
      simp at h
    have hmem : (v, groupLookup v g) ∈ g :=
      (mem_groups_iff g hg v _).mpr ⟨mem_keys_of_lookup_ne_nil g v hne, rfl⟩
    exact mem_conflictsOf.mpr ⟨v, _, hmem, by omega, rfl⟩

theorem not_mem_conflictsOf_of_ftype {g : Groups} {mkF : String → List Int → Finding}
    {f : Finding} (h : ∀ v l, (mkF v l).ftype ≠ f.ftype) : f ∉ conflictsOf g mkF := by
  intro hmem
  obtain ⟨v, l, _, _, heq⟩ := mem_conflictsOf.mp hmem
  exact h v l (by rw [heq])

/-- The spec's numerical-conflict example: slide 1 and slide 3. -/
def c1ExampleSlides : SlidesData :=
  [(1, mkSlideData ["Revenue increased to $500,000"]),
   (3, mkSlideData ["Total revenue: $500,000"])]

/-- A single slide mentioning the same gated currency value twice. -/
def c1CounterSlides : SlidesData :=
  [(1, mkSlideData ["revenue $5 and $5"])]

/-- Stated from the spec's words, for comparison with the code: the number
of *distinct* slides on which value `v` occurs in the selected fact field,
gated by the context keywords. -/
def specDistinctGatedSlides (field : SlideData → List String) (kws : List String)
    (slides : SlidesData) (v : String) : Nat :=
  (((slides.filter fun p =>
      hasKw kws (slideLower p.2) && (field p.2).contains v).map (·.1)).dedup).length

/-- C1 (amended): a `revenue_conflict` / `percentage_conflict` /
`quantity_conflict` finding for a value string is emitted iff that exact
value string has **two or more context-gated occurrences** (counted with
multiplicity, so the same slide can contribute twice) — not "two or more
distinct slides" as claimed; the finding's `slide_numbers` is the occurrence
list.  Severity is `high` for revenue and percentage conflicts and `medium`
for quantity conflicts, and on the spec's example (slides 1 and 3 both
naming `$500,000` next to a revenue keyword) exactly one `revenue_conflict`
finding referencing `[1, 3]` is emitted. -/
theorem numerical_conflict_scan (slides : SlidesData) (v : String) :
    (mkRevenueFinding v (occSlideList SlideData.currency revenueKeywords slides v)
        ∈ detect_numerical_conflicts slides
      ↔ 2 ≤ (occSlideList SlideData.currency revenueKeywords slides v).length)
    ∧ (mkPercentageFinding v
          (occSlideList SlideData.percentages percentageKeywords slides v)
        ∈ detect_numerical_conflicts slides
      ↔ 2 ≤ (occSlideList SlideData.percentages percentageKeywords slides v).length)
    ∧ (mkQuantityFinding v (occSlideList SlideData.numbers quantityKeywords slides v)
        ∈ detect_numerical_conflicts slides
      ↔ 2 ≤ (occSlideList SlideData.numbers quantityKeywords slides v).length)
    ∧ (∀ f ∈ detect_numerical_conflicts slides,
        (f.ftype = "revenue_conflict" → f.severity = some "high")
        ∧ (f.ftype = "percentage_conflict" → f.severity = some "high")
        ∧ (f.ftype = "quantity_conflict" → f.severity = some "medium"))
    ∧ detect_numerical_conflicts c1ExampleSlides
        = [mkRevenueFinding "$500,000" [1, 3]] := by
  refine ⟨?_, ?_, ?_, ?_, by decide⟩
  · rw [(groupLookup_collectGroups SlideData.currency revenueKeywords slides v).symm,
      detect_numerical_conflicts]
    constructor
    · intro h
      rcases List.mem_append.mp h with hAB | hC
      · rcases List.mem_append.mp hAB with hA | hB
        · exact (conflictsOf_lookup_iff _
            (nodup_groupKeys_collectGroups SlideData.currency revenueKeywords slides)
            mkRevenueFinding (fun _ _ => rfl) v).mp hA
        · exact absurd hB (not_mem_conflictsOf_of_ftype (fun v' l' => by
            simp [mkRevenueFinding, mkPercentageFinding, mkQuantityFinding]))
      · exact absurd hC (not_mem_conflictsOf_of_ftype (fun v' l' => by
            simp [mkRevenueFinding, mkPercentageFinding, mkQuantityFinding]))
    · intro h
      exact List.mem_append.mpr (Or.inl (List.mem_append.mpr (Or.inl
        ((conflictsOf_lookup_iff _
          (nodup_groupKeys_collectGroups SlideData.currency revenueKeywords slides)
          mkRevenueFinding (fun _ _ => rfl) v).mpr h))))
  · rw [(groupLookup_collectGroups SlideData.percentages percentageKeywords slides v).symm,
      detect_numerical_conflicts]
    constructor
    · intro h
      rcases List.mem_append.mp h with hAB | hC
      · rcases List.mem_append.mp hAB with hA | hB
        · exact absurd hA (not_mem_conflictsOf_of_ftype (fun v' l' => by
            simp [mkRevenueFinding, mkPercentageFinding, mkQuantityFinding]))
        · exact (conflictsOf_lookup_iff _
            (nodup_groupKeys_collectGroups SlideData.percentages percentageKeywords slides)
            mkPercentageFinding (fun _ _ => rfl) v).mp hB
      · exact absurd hC (not_mem_conflictsOf_of_ftype (fun v' l' => by
            simp [mkRevenueFinding, mkPercentageFinding, mkQuantityFinding]))
    · intro h
      exact List.mem_append.mpr (Or.inl (List.mem_append.mpr (Or.inr
        ((conflictsOf_lookup_iff _
          (nodup_groupKeys_collectGroups SlideData.percentages percentageKeywords slides)
          mkPercentageFinding (fun _ _ => rfl) v).mpr h))))
  · rw [(groupLookup_collectGroups SlideData.numbers quantityKeywords slides v).symm,
      detect_numerical_conflicts]
    constructor
    · intro h
      rcases List.mem_append.mp h with hAB | hC
      · rcases List.mem_append.mp hAB with hA | hB
        · exact absurd hA (not_mem_conflictsOf_of_ftype (fun v' l' => by
            simp [mkRevenueFinding, mkPercentageFinding, mkQuantityFinding]))
        · exact absurd hB (not_mem_conflictsOf_of_ftype (fun v' l' => by
            simp [mkRevenueFinding, mkPercentageFinding, mkQuantityFinding]))
      · exact (conflictsOf_lookup_iff _
          (nodup_groupKeys_collectGroups SlideData.numbers quantityKeywords slides)
          mkQuantityFinding (fun _ _ => rfl) v).mp hC
    · intro h
      exact List.mem_append.mpr (Or.inr
        ((conflictsOf_lookup_iff _
          (nodup_groupKeys_collectGroups SlideData.numbers quantityKeywords slides)
          mkQuantityFinding (fun _ _ => rfl) v).mpr h))
  · intro f hf
    rw [detect_numerical_conflicts] at hf
    rcases List.mem_append.mp hf with hAB | hC
    · rcases List.mem_append.mp hAB with hA | hB
      · obtain ⟨v', l', _, _, rfl⟩ := mem_conflictsOf.mp hA
        exact ⟨fun _ => rfl, fun h => absurd h (by simp [mkRevenueFinding, mkPercentageFinding, mkQuantityFinding]), fun h => absurd h (by simp [mkRevenueFinding, mkPercentageFinding, mkQuantityFinding])⟩
      · obtain ⟨v', l', _, _, rfl⟩ := mem_conflictsOf.mp hB
        exact ⟨fun h => absurd h (by simp [mkRevenueFinding, mkPercentageFinding, mkQuantityFinding]), fun _ => rfl, fun h => absurd h (by simp [mkRevenueFinding, mkPercentageFinding, mkQuantityFinding])⟩
    · obtain ⟨v', l', _, _, rfl⟩ := mem_conflictsOf.mp hC
      exact ⟨fun h => absurd h (by simp [mkRevenueFinding, mkPercentageFinding, mkQuantityFinding]), fun h => absurd h (by simp [mkRevenueFinding, mkPercentageFinding, mkQuantityFinding]), fun _ => rfl⟩

theorem numerical_conflict_scan_witness :
    2 ≤ (occSlideList SlideData.currency revenueKeywords c1ExampleSlides "$500,000").length
    ∧ mkRevenueFinding "$500,000"
        (occSlideList SlideData.currency revenueKeywords c1ExampleSlides "$500,000")
        ∈ detect_numerical_conflicts c1ExampleSlides :=
  ⟨by decide, (numerical_conflict_scan c1ExampleSlides "$500,000").1.mpr (by decide)⟩

/-- C1 counterexample: on a single slide whose text `"revenue $5 and $5"`
mentions the gated value `$5` twice, the scan *does* emit a
`revenue_conflict` finding (with `slide_numbers = [1, 1]`) although the
value appears on only one distinct slide — refuting the claimed "two or
more distinct slides" condition. -/
theorem numerical_conflict_distinct_counterexample :
    detect_numerical_conflicts c1CounterSlides = [mkRevenueFinding "$5" [1, 1]]
    ∧ specDistinctGatedSlides SlideData.currency revenueKeywords c1CounterSlides "$5"
        = 1 := by
  decide

end SlideSage
